import Mathlib

/-!
Verification of the OpenVPN control-channel HMAC layer
(`openvpn/crypto/ovpnhmac.hpp`): the `OvpnHMAC` engine with its
packet-layout convolution (`ovpn_hmac_pre`), tag generation
(`ovpn_hmac_gen`), tag verification (`ovpn_hmac_cmp`), and the
polymorphic Context/Factory wrappers.

Buffers are `List Nat` (one entry per byte); the external keyed-hash
primitive, digest registry and constant-time comparison are modelled as
explicitly documented below.
-/

namespace OvpnHmacSpec

/-- Modelled from the spec: the external digest registry and keyed-hash
primitive, which are out of scope of the shown source
(`CryptoAlgs` and `CRYPTO_API::HMACContext`).
`sz d` is digest `d`'s output size (`CryptoAlgs::size` / `Alg::size` /
`HMACContext::size`, all the digest's output size); `F d key msg` is the
keyed-hash (HMAC) value as a byte list of length `sz d`; `legal d` is the
registry's `legal_dc_digest` filter. -/
structure CryptoAPI where
  sz : Nat → Nat
  F : Nat → List Nat → List Nat → List Nat
  F_len : ∀ d k m, (F d k m).length = sz d
  legal : Nat → Bool

/-- The external `CRYPTO_API::HMACContext` state: `inited` holds the
digest and the key bytes bound by `init(digest, key, len)` (the primitive
reads exactly `len` bytes from the key pointer, per the spec interface
`init(key, len)`); `acc` is the byte stream consumed by `update` since the
last `reset`, to which `final` applies the keyed hash. -/
structure HMACContext where
  inited : Option (Nat × List Nat)
  acc : List Nat
deriving Repr, DecidableEq

namespace HMACContext

/-- A default-constructed (uninitialized) context. -/
def mk0 : HMACContext := ⟨none, []⟩

/-- `ctx.init(digest, key, len)`: binds the digest and the first `len`
bytes of the key, per the primitive interface `init(key, len)`. -/
def init (digest : Nat) (key : List Nat) (len : Nat) : HMACContext :=
  ⟨some (digest, key.take len), []⟩

/-- `ctx.is_initialized()`. -/
def is_initialized (c : HMACContext) : Bool := c.inited.isSome

/-- `ctx.size()`: the bound digest's output size (0 when unbound,
a state no caller in the source reaches). -/
def size (api : CryptoAPI) (c : HMACContext) : Nat :=
  match c.inited with
  | some (d, _) => api.sz d
  | none => 0

/-- `ctx.reset()`. -/
def reset (c : HMACContext) : HMACContext := ⟨c.inited, []⟩

/-- `ctx.update(in, in_size)`: consumes the given bytes. -/
def update (c : HMACContext) (bytes : List Nat) : HMACContext :=
  ⟨c.inited, c.acc ++ bytes⟩

/-- `ctx.final(out)`: the keyed hash of the consumed bytes
(`[]` when unbound, a state no caller in the source reaches). -/
def final (api : CryptoAPI) (c : HMACContext) : List Nat :=
  match c.inited with
  | some (d, k) => api.F d k c.acc
  | none => []

end HMACContext

/-- Modelled from the spec: `crypto::memneq(a, b, n)`
(`openvpn/common/memneq.hpp`, not among the shown sources): a dedicated
constant-time byte comparison that never short-circuits — it walks all
`n` byte pairs, OR-accumulating the XOR of each pair, and reports whether
the accumulator is nonzero.  `memneqAcc` is the loop; the model compares
`min` of the two list lengths pairs (the C call always receives `n`
readable bytes on both sides). -/
def memneqAcc : List Nat → List Nat → Nat → Nat
  | x :: xs, y :: ys, acc => memneqAcc xs ys (acc ||| (x ^^^ y))
  | _, _, acc => acc

/-- `crypto::memneq(a, b, n)` result: true iff the accumulated
XOR-differences are nonzero. -/
def memneq (a b : List Nat) : Bool := memneqAcc a b 0 ≠ 0

/-- Iteration count of the `memneq` loop: one step per byte pair,
regardless of contents. -/
def memneqSteps : List Nat → List Nat → Nat
  | _ :: xs, _ :: ys => memneqSteps xs ys + 1
  | _, _ => 0

/-- Error taxonomy of `OvpnHMAC` (`OPENVPN_SIMPLE_EXCEPTION`s). -/
inductive HmacErr where
  | digest_size
  | bad_sizing
deriving Repr, DecidableEq

/-- `memcpy`-style write of `src` into `data` at byte offset `pos`
(models `ctx.final(data + l1)` writing `sz` bytes at `data + l1`). -/
def writeBytes (data : List Nat) (pos : Nat) (src : List Nat) : List Nat :=
  data.take pos ++ src ++ data.drop (pos + src.length)

/-- The `OvpnHMAC<CRYPTO_API>` engine: holds one `HMACContext`. -/
structure OvpnHMAC where
  ctx : HMACContext
deriving Repr, DecidableEq

namespace OvpnHMAC

/-- `OvpnHMAC()`: default construction, context uninitialized. -/
def mk0 : OvpnHMAC := ⟨HMACContext.mk0⟩

/-- `defined()`. -/
def defined (c : OvpnHMAC) : Bool := c.ctx.is_initialized

/-- `output_size()`. -/
def output_size (api : CryptoAPI) (c : OvpnHMAC) : Nat := c.ctx.size api

/-- `init(digest, key)`: checks `key.size() < alg.size()` and throws
`ovpn_hmac_context_digest_size` before touching the context; otherwise
`ctx.init(digest, key.data(), alg.size())`.  The pair returned is
(thrown error if any, engine state after the call). -/
def init (api : CryptoAPI) (c : OvpnHMAC) (digest : Nat) (key : List Nat) :
    Option HmacErr × OvpnHMAC :=
  if key.length < api.sz digest then
    (some HmacErr.digest_size, c)
  else
    (none, ⟨HMACContext.init digest key (api.sz digest)⟩)

/-- `ovpn_hmac_pre(data, data_size, l1, l2, l3)`: the packet-layout
convolution, with `lsum = l1 + l2 + l3` written out.  Checks
`lsum > data_size || l2 != ctx.size()`; on success resets the context and
feeds it `data[l1+l2 .. l1+l2+l3)`, then `data[0 .. l1)`, then
`data[lsum .. data_size)`.  Returns the C++ bool and the engine state
after the call. -/
def ovpn_hmac_pre (api : CryptoAPI) (c : OvpnHMAC) (data : List Nat)
    (l1 l2 l3 : Nat) : Bool × OvpnHMAC :=
  if l1 + l2 + l3 > data.length ∨ l2 ≠ c.ctx.size api then
    (false, c)
  else
    (true, ⟨((c.ctx.reset.update ((data.drop (l1 + l2)).take l3)).update
      (data.take l1)).update (data.drop (l1 + l2 + l3))⟩)

/-- `ovpn_hmac_gen(data, data_size, l1, l2, l3)`: on good sizing writes
`ctx.final` at `data + l1`; otherwise throws
`ovpn_hmac_context_bad_sizing`.  Returns (thrown error if any, buffer
after the call, engine state after the call). -/
def ovpn_hmac_gen (api : CryptoAPI) (c : OvpnHMAC) (data : List Nat)
    (l1 l2 l3 : Nat) : Option HmacErr × List Nat × OvpnHMAC :=
  match c.ovpn_hmac_pre api data l1 l2 l3 with
  | (true, c1) => (none, writeBytes data l1 (c1.ctx.final api), c1)
  | (false, _) => (some HmacErr.bad_sizing, data, c)

/-- `ovpn_hmac_cmp(data, data_size, l1, l2, l3)`: on good sizing
recomputes the tag into a local buffer and compares `l2` bytes at
`data + l1` against it with `crypto::memneq`; otherwise returns false.
`data` is a `const` pointer in the source; the buffer after the call is
returned alongside to make that explicit.  Result:
(verification bool, buffer after the call, engine state after). -/
def ovpn_hmac_cmp (api : CryptoAPI) (c : OvpnHMAC) (data : List Nat)
    (l1 l2 l3 : Nat) : Bool × List Nat × OvpnHMAC :=
  match c.ovpn_hmac_pre api data l1 l2 l3 with
  | (true, c1) =>
      let local_hmac := c1.ctx.final api
      (!memneq ((data.drop l1).take l2) (local_hmac.take l2), data, c1)
  | (false, _) => (false, data, c)

end OvpnHMAC

/-- Byte slice `data[a .. b)`, following the spec's interval notation. -/
def slice (data : List Nat) (a b : Nat) : List Nat :=
  (data.drop a).take (b - a)

/-- The hashed material as the spec describes it:
`PacketId ++ Prefix ++ Payload`, i.e.
`data[l1+l2 .. l1+l2+l3) ++ data[0 .. l1) ++ data[l1+l2+l3 .. len)`. -/
def specHashInput (data : List Nat) (l1 l2 l3 : Nat) : List Nat :=
  slice data (l1 + l2) (l1 + l2 + l3) ++ slice data 0 l1 ++
    slice data (l1 + l2 + l3) data.length

/-- Error of the wrapper Context construction. -/
inductive CtxErr where
  | unsupported
deriving Repr, DecidableEq

/-- Modelled from the spec: `CryptoAlgs::legal_dc_digest`
(not among the shown sources): passes an identifier through the
registry's legal filter, failing otherwise. -/
def legal_dc_digest (api : CryptoAPI) (d : Nat) : Except CtxErr Nat :=
  if api.legal d then Except.ok d else Except.error CtxErr.unsupported

/-- `CryptoOvpnHMACContext<CRYPTO_API>`: binds a digest, no key. -/
structure CryptoOvpnHMACContext where
  digest : Nat
deriving Repr, DecidableEq

namespace CryptoOvpnHMACContext

/-- The constructor `CryptoOvpnHMACContext(digest_type)`: resolves the
identifier through `CryptoAlgs::legal_dc_digest`, which fails on an
identifier outside the legal set; no key is involved. -/
def make (api : CryptoAPI) (d : Nat) : Except CtxErr CryptoOvpnHMACContext :=
  match legal_dc_digest api d with
  | Except.ok dd => Except.ok ⟨dd⟩
  | Except.error e => Except.error e

/-- `size()`: `CryptoAlgs::size(digest)`, the digest's output size. -/
def size (api : CryptoAPI) (c : CryptoOvpnHMACContext) : Nat :=
  api.sz c.digest

end CryptoOvpnHMACContext

/-- A small concrete instantiation of the external primitive, used to
evaluate the development on concrete inputs: every digest has 2-byte
output, and the keyed hash mixes key and message bytes positionally. -/
def toyAPI : CryptoAPI where
  sz := fun _ => 2
  F := fun d k m =>
    [(d + k.sum + m.sum) % 256,
     (k.length + m.foldl (fun a x => (a * 31 + x) % 256) 7) % 256]
  F_len := fun _ _ _ => rfl
  legal := fun d => d < 10

/-! ### Bitwise and `memneq` lemmas -/

lemma or_eq_zero_iff (a b : Nat) : a ||| b = 0 ↔ a = 0 ∧ b = 0 := by
  constructor
  · intro h
    have hbit : ∀ i, a.testBit i = false ∧ b.testBit i = false := by
      intro i
      have hh := congrArg (fun n => n.testBit i) h
      simp [Nat.testBit_or] at hh
      exact hh
    exact ⟨Nat.eq_of_testBit_eq fun i => by simp [(hbit i).1],
           Nat.eq_of_testBit_eq fun i => by simp [(hbit i).2]⟩
  · rintro ⟨rfl, rfl⟩
    rfl

lemma xor_pow_ne (x p : Nat) : x ^^^ 2 ^ p ≠ x := by
  intro h
  have h2 : x ^^^ (x ^^^ 2 ^ p) = x ^^^ x := congrArg (x ^^^ ·) h
  rw [← Nat.xor_assoc, Nat.xor_self, Nat.zero_xor] at h2
  exact absurd h2 (Nat.pos_iff_ne_zero.mp (Nat.pos_pow_of_pos p (by norm_num)))

lemma memneqAcc_or (xs : List Nat) : ∀ (ys : List Nat) (acc : Nat),
    memneqAcc xs ys acc = acc ||| memneqAcc xs ys 0 := by
  induction xs with
  | nil => intro ys acc; cases ys <;> simp [memneqAcc]
  | cons x xs ih =>
    intro ys acc
    cases ys with
    | nil => simp [memneqAcc]
    | cons y ys =>
      rw [memneqAcc, memneqAcc, ih ys (acc ||| (x ^^^ y)), ih ys (0 ||| (x ^^^ y))]
      simp [Nat.zero_or, Nat.or_assoc]

lemma memneqAcc_zero_iff (xs : List Nat) : ∀ ys : List Nat,
    xs.length = ys.length → (memneqAcc xs ys 0 = 0 ↔ xs = ys) := by
  induction xs with
  | nil =>
    intro ys h
    cases ys with
    | nil => simp [memneqAcc]
    | cons y ys => simp at h
  | cons x xs ih =>
    intro ys h
    cases ys with
    | nil => simp at h
    | cons y ys =>
      rw [memneqAcc, memneqAcc_or, or_eq_zero_iff, Nat.zero_or,
        Nat.xor_eq_zero, ih ys (by simpa using h)]
      simp

lemma memneq_eq_false_iff (a b : List Nat) (h : a.length = b.length) :
    memneq a b = false ↔ a = b := by
  simp [memneq, memneqAcc_zero_iff a b h]

lemma memneq_eq_true_iff (a b : List Nat) (h : a.length = b.length) :
    memneq a b = true ↔ a ≠ b := by
  constructor
  · intro ht heq
    have hf := (memneq_eq_false_iff a b h).mpr heq
    rw [ht] at hf
    cases hf
  · intro hne
    cases hmn : memneq a b with
    | false => exact absurd ((memneq_eq_false_iff a b h).mp hmn) hne
    | true => rfl

lemma memneqSteps_eq (a : List Nat) : ∀ b : List Nat,
    memneqSteps a b = min a.length b.length := by
  induction a with
  | nil => intro b; cases b <;> simp [memneqSteps]
  | cons x xs ih =>
    intro b
    cases b with
    | nil => simp [memneqSteps]
    | cons y ys => simp [memneqSteps, ih ys, Nat.succ_min_succ]

/-! ### Slice and `specHashInput` lemmas -/

lemma specHashInput_eq (data : List Nat) (l1 l2 l3 : Nat) :
    specHashInput data l1 l2 l3 =
      (data.drop (l1 + l2)).take l3 ++ data.take l1 ++
        data.drop (l1 + l2 + l3) := by
  have h1 : l1 + l2 + l3 - (l1 + l2) = l3 := by omega
  have h3 : data.length - (l1 + l2 + l3) = (data.drop (l1 + l2 + l3)).length := by
    rw [List.length_drop]
  unfold specHashInput slice
  rw [h1, h3, List.take_length]
  simp

lemma slice_eq_of_agree (b b' : List Nat) (a c : Nat)
    (h : ∀ j, a ≤ j → j < c → b'[j]? = b[j]?) :
    slice b' a c = slice b a c := by
  apply List.ext_getElem?
  intro i
  unfold slice
  rw [List.getElem?_take, List.getElem?_take]
  by_cases hi : i < c - a
  · rw [if_pos hi, if_pos hi, List.getElem?_drop, List.getElem?_drop]
    exact h (a + i) (by omega) (by omega)
  · rw [if_neg hi, if_neg hi]

lemma specHashInput_congr (b b' : List Nat) (l1 l2 l3 : Nat)
    (hlen : b'.length = b.length)
    (hag : ∀ j, j < l1 ∨ l1 + l2 ≤ j → b'[j]? = b[j]?) :
    specHashInput b' l1 l2 l3 = specHashInput b l1 l2 l3 := by
  unfold specHashInput
  rw [hlen]
  rw [slice_eq_of_agree b b' (l1 + l2) (l1 + l2 + l3)
      (fun j hj _ => hag j (Or.inr (by omega))),
    slice_eq_of_agree b b' 0 l1 (fun j _ hj2 => hag j (Or.inl hj2)),
    slice_eq_of_agree b b' (l1 + l2 + l3) b.length
      (fun j hj _ => hag j (Or.inr (by omega)))]

/-! ### Unfolding lemmas for the engine operations -/

lemma engine_eta (c : OvpnHMAC) (d : Nat) (k : List Nat)
    (hd : c.ctx.inited = some (d, k)) :
    c = ⟨⟨some (d, k), c.ctx.acc⟩⟩ := by
  obtain ⟨⟨i, a⟩⟩ := c
  have hi : i = some (d, k) := hd
  subst hi
  rfl

lemma ovpn_hmac_pre_invalid (api : CryptoAPI) (c : OvpnHMAC) (data : List Nat)
    (l1 l2 l3 : Nat)
    (h : l1 + l2 + l3 > data.length ∨ l2 ≠ c.ctx.size api) :
    c.ovpn_hmac_pre api data l1 l2 l3 = (false, c) := by
  rw [OvpnHMAC.ovpn_hmac_pre, if_pos h]

lemma ovpn_hmac_pre_valid (api : CryptoAPI) (d : Nat) (k acc data : List Nat)
    (l1 l2 l3 : Nat) (hl : l1 + l2 + l3 ≤ data.length) (hsz : l2 = api.sz d) :
    OvpnHMAC.ovpn_hmac_pre api ⟨⟨some (d, k), acc⟩⟩ data l1 l2 l3 =
      (true, ⟨⟨some (d, k), specHashInput data l1 l2 l3⟩⟩) := by
  have hcond : ¬ (l1 + l2 + l3 > data.length ∨
      l2 ≠ HMACContext.size api (⟨⟨some (d, k), acc⟩⟩ : OvpnHMAC).ctx) := by
    push_neg
    exact ⟨hl, hsz⟩
  rw [OvpnHMAC.ovpn_hmac_pre, if_neg hcond, specHashInput_eq]
  simp [HMACContext.reset, HMACContext.update]

lemma ovpn_hmac_gen_invalid (api : CryptoAPI) (c : OvpnHMAC) (data : List Nat)
    (l1 l2 l3 : Nat)
    (h : l1 + l2 + l3 > data.length ∨ l2 ≠ c.ctx.size api) :
    c.ovpn_hmac_gen api data l1 l2 l3 = (some HmacErr.bad_sizing, data, c) := by
  simp only [OvpnHMAC.ovpn_hmac_gen, ovpn_hmac_pre_invalid api c data l1 l2 l3 h]

lemma ovpn_hmac_gen_valid (api : CryptoAPI) (d : Nat) (k acc data : List Nat)
    (l1 l2 l3 : Nat) (hl : l1 + l2 + l3 ≤ data.length) (hsz : l2 = api.sz d) :
    OvpnHMAC.ovpn_hmac_gen api ⟨⟨some (d, k), acc⟩⟩ data l1 l2 l3 =
      (none, writeBytes data l1 (api.F d k (specHashInput data l1 l2 l3)),
        ⟨⟨some (d, k), specHashInput data l1 l2 l3⟩⟩) := by
  simp only [OvpnHMAC.ovpn_hmac_gen,
    ovpn_hmac_pre_valid api d k acc data l1 l2 l3 hl hsz, HMACContext.final]

lemma ovpn_hmac_cmp_invalid (api : CryptoAPI) (c : OvpnHMAC) (data : List Nat)
    (l1 l2 l3 : Nat)
    (h : l1 + l2 + l3 > data.length ∨ l2 ≠ c.ctx.size api) :
    c.ovpn_hmac_cmp api data l1 l2 l3 = (false, data, c) := by
  simp only [OvpnHMAC.ovpn_hmac_cmp, ovpn_hmac_pre_invalid api c data l1 l2 l3 h]

lemma ovpn_hmac_cmp_valid (api : CryptoAPI) (d : Nat) (k acc data : List Nat)
    (l1 l2 l3 : Nat) (hl : l1 + l2 + l3 ≤ data.length) (hsz : l2 = api.sz d) :
    OvpnHMAC.ovpn_hmac_cmp api ⟨⟨some (d, k), acc⟩⟩ data l1 l2 l3 =
      (!memneq (slice data l1 (l1 + l2))
          (api.F d k (specHashInput data l1 l2 l3)),
        data, ⟨⟨some (d, k), specHashInput data l1 l2 l3⟩⟩) := by
  have hlen2 : (api.F d k (specHashInput data l1 l2 l3)).length ≤ l2 := by
    rw [api.F_len, hsz]
  have htake : (api.F d k (specHashInput data l1 l2 l3)).take l2 =
      api.F d k (specHashInput data l1 l2 l3) :=
    List.take_of_length_le hlen2
  have hslice : slice data l1 (l1 + l2) = (data.drop l1).take l2 := by
    unfold slice
    congr 1
    omega
  simp only [OvpnHMAC.ovpn_hmac_cmp,
    ovpn_hmac_pre_valid api d k acc data l1 l2 l3 hl hsz, HMACContext.final,
    htake, hslice]

/-! ### `writeBytes` lemmas -/

lemma append_drop_len (T rest : List Nat) (n : Nat) (h : T.length = n) :
    (T ++ rest).drop n = rest := by
  subst h
  exact List.drop_left T rest

lemma append_take_len (T rest : List Nat) (n : Nat) (h : T.length = n) :
    (T ++ rest).take n = T := by
  subst h
  exact List.take_left T rest

lemma writeBytes_length (data src : List Nat) (p : Nat)
    (h : p + src.length ≤ data.length) :
    (writeBytes data p src).length = data.length := by
  unfold writeBytes
  rw [List.length_append, List.length_append, List.length_take, List.length_drop]
  omega

lemma writeBytes_getElem_out (data src : List Nat) (p i : Nat)
    (hp : p + src.length ≤ data.length)
    (hi : i < p ∨ p + src.length ≤ i) :
    (writeBytes data p src)[i]? = data[i]? := by
  have hT : (data.take p).length = p := by
    rw [List.length_take]
    omega
  unfold writeBytes
  rw [List.append_assoc, List.getElem?_append, hT]
  rcases hi with h1 | h2
  · rw [if_pos h1, List.getElem?_take, if_pos h1]
  · rw [if_neg (by omega), List.getElem?_append, if_neg (by omega),
      List.getElem?_drop]
    have hx : p + src.length + (i - p - src.length) = i := by omega
    rw [hx]

lemma writeBytes_slice (data src : List Nat) (p n : Nat)
    (hp : p ≤ data.length) (hn : src.length = n) :
    slice (writeBytes data p src) p (p + n) = src := by
  have hT : (data.take p).length = p := by
    rw [List.length_take]
    omega
  unfold writeBytes slice
  rw [List.append_assoc, append_drop_len _ _ _ hT]
  have hx : p + n - p = n := by omega
  rw [hx, append_take_len _ _ _ hn]

/-! ### Index characterization of the hashed material -/

lemma specHashInput_getElem_pid (data : List Nat) (l1 l2 l3 i : Nat)
    (hl : l1 + l2 + l3 ≤ data.length) (hi : i < l3) :
    (specHashInput data l1 l2 l3)[i]? = data[l1 + l2 + i]? := by
  have hA : ((data.drop (l1 + l2)).take l3).length = l3 := by
    rw [List.length_take, List.length_drop]
    omega
  rw [specHashInput_eq, List.append_assoc, List.getElem?_append, hA,
    if_pos hi, List.getElem?_take, if_pos hi, List.getElem?_drop]

lemma specHashInput_getElem_op (data : List Nat) (l1 l2 l3 i : Nat)
    (hl : l1 + l2 + l3 ≤ data.length) (hi : i < l1) :
    (specHashInput data l1 l2 l3)[l3 + i]? = data[i]? := by
  have hA : ((data.drop (l1 + l2)).take l3).length = l3 := by
    rw [List.length_take, List.length_drop]
    omega
  have hB : (data.take l1).length = l1 := by
    rw [List.length_take]
    omega
  rw [specHashInput_eq, List.append_assoc, List.getElem?_append, hA,
    if_neg (by omega), List.getElem?_append, hB]
  have h2 : l3 + i - l3 = i := by omega
  rw [h2, if_pos hi, List.getElem?_take, if_pos hi]

lemma specHashInput_getElem_payload (data : List Nat) (l1 l2 l3 i : Nat)
    (hl : l1 + l2 + l3 ≤ data.length) (hi1 : l1 + l2 + l3 ≤ i)
    (hi2 : i < data.length) :
    (specHashInput data l1 l2 l3)[l3 + l1 + (i - (l1 + l2 + l3))]? =
      data[i]? := by
  have hA : ((data.drop (l1 + l2)).take l3).length = l3 := by
    rw [List.length_take, List.length_drop]
    omega
  have hB : (data.take l1).length = l1 := by
    rw [List.length_take]
    omega
  rw [specHashInput_eq, List.append_assoc, List.getElem?_append, hA,
    if_neg (by omega), List.getElem?_append, hB]
  have h2 : l3 + l1 + (i - (l1 + l2 + l3)) - l3 = l1 + (i - (l1 + l2 + l3)) := by
    omega
  rw [h2, if_neg (by omega), List.getElem?_drop]
  have h3 : l1 + (i - (l1 + l2 + l3)) - l1 = i - (l1 + l2 + l3) := by omega
  have h4 : l1 + l2 + l3 + (i - (l1 + l2 + l3)) = i := by omega
  rw [h3, h4]

lemma specHashInput_writeBytes (data src : List Nat) (l1 l2 l3 : Nat)
    (hsrc : src.length = l2) (hl : l1 + l2 + l3 ≤ data.length) :
    specHashInput (writeBytes data l1 src) l1 l2 l3 =
      specHashInput data l1 l2 l3 := by
  apply specHashInput_congr
  · exact writeBytes_length data src l1 (by omega)
  · intro j hj
    exact writeBytes_getElem_out data src l1 j (by omega) (by omega)

lemma specHashInput_ne_of_change (b b' : List Nat) (l1 l2 l3 i : Nat)
    (hl : l1 + l2 + l3 ≤ b.length) (hlen : b'.length = b.length)
    (hi : i < b.length) (hreg : i < l1 ∨ l1 + l2 ≤ i)
    (hne : b'[i]? ≠ b[i]?) :
    specHashInput b' l1 l2 l3 ≠ specHashInput b l1 l2 l3 := by
  intro heq
  rcases hreg with h1 | h2
  · have e1 := specHashInput_getElem_op b' l1 l2 l3 i (by omega) h1
    have e2 := specHashInput_getElem_op b l1 l2 l3 i hl h1
    rw [heq] at e1
    exact hne (e1.symm.trans e2)
  · by_cases h3 : i < l1 + l2 + l3
    · have hi3 : i - (l1 + l2) < l3 := by omega
      have e1 := specHashInput_getElem_pid b' l1 l2 l3 (i - (l1 + l2))
        (by omega) hi3
      have e2 := specHashInput_getElem_pid b l1 l2 l3 (i - (l1 + l2)) hl hi3
      have hx : l1 + l2 + (i - (l1 + l2)) = i := by omega
      rw [hx] at e1 e2
      rw [heq] at e1
      exact hne (e1.symm.trans e2)
    · have e1 := specHashInput_getElem_payload b' l1 l2 l3 i (by omega)
        (by omega) (by omega)
      have e2 := specHashInput_getElem_payload b l1 l2 l3 i hl (by omega) hi
      rw [heq] at e1
      exact hne (e1.symm.trans e2)

/-- A single-bit tamper: byte `i` of the buffer XORed with `2 ^ p`. -/
def flipBit (data : List Nat) (i p : Nat) : List Nat :=
  data.set i (data.getD i 0 ^^^ 2 ^ p)

lemma output_size_eq (api : CryptoAPI) (c : OvpnHMAC) (d : Nat) (k : List Nat)
    (hd : c.ctx.inited = some (d, k)) : c.output_size api = api.sz d := by
  rw [engine_eta c d k hd]
  rfl

lemma slice_getElem (b : List Nat) (a c j : Nat) (hj : j < c - a) :
    (slice b a c)[j]? = b[a + j]? := by
  unfold slice
  rw [List.getElem?_take, if_pos hj, List.getElem?_drop]

lemma slice_tag_length (b : List Nat) (l1 l2 : Nat) (h : l1 + l2 ≤ b.length) :
    (slice b l1 (l1 + l2)).length = l2 := by
  unfold slice
  rw [List.length_take, List.length_drop]
  omega

lemma round_trip_core (api : CryptoAPI) (d : Nat) (k acc data : List Nat)
    (l1 l2 l3 : Nat) (hl : l1 + l2 + l3 ≤ data.length) (hsz : l2 = api.sz d) :
    (OvpnHMAC.ovpn_hmac_cmp api ⟨⟨some (d, k), acc⟩⟩
      (writeBytes data l1 (api.F d k (specHashInput data l1 l2 l3)))
      l1 l2 l3).1 = true := by
  have hT : (api.F d k (specHashInput data l1 l2 l3)).length = l2 := by
    rw [api.F_len, hsz]
  have hblen : (writeBytes data l1
      (api.F d k (specHashInput data l1 l2 l3))).length = data.length :=
    writeBytes_length data _ l1 (by omega)
  rw [ovpn_hmac_cmp_valid api d k acc _ l1 l2 l3 (by omega) hsz,
    specHashInput_writeBytes data _ l1 l2 l3 hT hl,
    writeBytes_slice data _ l1 l2 (by omega) hT]
  have hmn : memneq (api.F d k (specHashInput data l1 l2 l3))
      (api.F d k (specHashInput data l1 l2 l3)) = false :=
    (memneq_eq_false_iff _ _ rfl).mpr rfl
  rw [hmn]
  rfl

lemma tamper_core (api : CryptoAPI) (d : Nat) (k acc data : List Nat)
    (l1 l2 l3 i p : Nat)
    (hl : l1 + l2 + l3 ≤ data.length) (hsz : l2 = api.sz d)
    (hi : i < data.length)
    (hF : ¬ (l1 ≤ i ∧ i < l1 + l2) →
      api.F d k (specHashInput
          (flipBit (writeBytes data l1
            (api.F d k (specHashInput data l1 l2 l3))) i p) l1 l2 l3) ≠
        api.F d k (specHashInput data l1 l2 l3)) :
    (¬ (l1 ≤ i ∧ i < l1 + l2) →
      specHashInput (flipBit (writeBytes data l1
          (api.F d k (specHashInput data l1 l2 l3))) i p) l1 l2 l3 ≠
        specHashInput data l1 l2 l3) ∧
    (OvpnHMAC.ovpn_hmac_cmp api ⟨⟨some (d, k), acc⟩⟩
      (flipBit (writeBytes data l1
        (api.F d k (specHashInput data l1 l2 l3))) i p) l1 l2 l3).1 = false := by
  have hT : (api.F d k (specHashInput data l1 l2 l3)).length = l2 := by
    rw [api.F_len, hsz]
  have hb1 : (writeBytes data l1
      (api.F d k (specHashInput data l1 l2 l3))).length = data.length :=
    writeBytes_length data _ l1 (by omega)
  have hb2 : (flipBit (writeBytes data l1
      (api.F d k (specHashInput data l1 l2 l3))) i p).length = data.length := by
    unfold flipBit
    rw [List.length_set, hb1]
  have hib1 : i < (writeBytes data l1
      (api.F d k (specHashInput data l1 l2 l3))).length := by omega
  have hb2i : (flipBit (writeBytes data l1
      (api.F d k (specHashInput data l1 l2 l3))) i p)[i]? =
      some ((writeBytes data l1
        (api.F d k (specHashInput data l1 l2 l3))).getD i 0 ^^^ 2 ^ p) := by
    unfold flipBit
    rw [List.getElem?_set_self]
    exact hib1
  have hb1i : (writeBytes data l1
      (api.F d k (specHashInput data l1 l2 l3)))[i]? =
      some ((writeBytes data l1
        (api.F d k (specHashInput data l1 l2 l3))).getD i 0) := by
    rw [List.getD_eq_getElem?_getD, List.getElem?_eq_getElem hib1]
    rfl
  have hneq_b1 : (flipBit (writeBytes data l1
      (api.F d k (specHashInput data l1 l2 l3))) i p)[i]? ≠
      (writeBytes data l1 (api.F d k (specHashInput data l1 l2 l3)))[i]? := by
    rw [hb2i, hb1i]
    intro hcon
    exact xor_pow_ne _ p (Option.some.inj hcon)
  have hb2j : ∀ j, j ≠ i → (flipBit (writeBytes data l1
      (api.F d k (specHashInput data l1 l2 l3))) i p)[j]? =
      (writeBytes data l1 (api.F d k (specHashInput data l1 l2 l3)))[j]? := by
    intro j hj
    unfold flipBit
    exact List.getElem?_set_ne (fun he => hj he.symm)
  have hmain : ¬ (l1 ≤ i ∧ i < l1 + l2) →
      specHashInput (flipBit (writeBytes data l1
          (api.F d k (specHashInput data l1 l2 l3))) i p) l1 l2 l3 ≠
        specHashInput data l1 l2 l3 := by
    intro hout
    have hreg : i < l1 ∨ l1 + l2 ≤ i := by omega
    apply specHashInput_ne_of_change data _ l1 l2 l3 i hl hb2 hi hreg
    have hdata_i : (writeBytes data l1
        (api.F d k (specHashInput data l1 l2 l3)))[i]? = data[i]? :=
      writeBytes_getElem_out data _ l1 i (by omega) (by omega)
    rw [← hdata_i]
    exact hneq_b1
  refine ⟨hmain, ?_⟩
  rw [ovpn_hmac_cmp_valid api d k acc _ l1 l2 l3 (by omega) hsz]
  by_cases hinT : l1 ≤ i ∧ i < l1 + l2
  · -- flip inside the Tag region: hashed material is unchanged, the
    -- recomputed tag equals the original one, but the embedded tag differs.
    have hMeq : specHashInput (flipBit (writeBytes data l1
        (api.F d k (specHashInput data l1 l2 l3))) i p) l1 l2 l3 =
        specHashInput data l1 l2 l3 := by
      apply specHashInput_congr data _ l1 l2 l3 hb2
      intro j hj
      have hji : j ≠ i := by omega
      rw [hb2j j hji]
      exact writeBytes_getElem_out data _ l1 j (by omega) (by omega)
    rw [hMeq]
    have hsl1 : slice (writeBytes data l1
        (api.F d k (specHashInput data l1 l2 l3))) l1 (l1 + l2) =
        api.F d k (specHashInput data l1 l2 l3) :=
      writeBytes_slice data _ l1 l2 (by omega) hT
    have hslen : (slice (flipBit (writeBytes data l1
        (api.F d k (specHashInput data l1 l2 l3))) i p) l1 (l1 + l2)).length =
        l2 := slice_tag_length _ l1 l2 (by omega)
    have hsne : slice (flipBit (writeBytes data l1
        (api.F d k (specHashInput data l1 l2 l3))) i p) l1 (l1 + l2) ≠
        api.F d k (specHashInput data l1 l2 l3) := by
      intro hcon
      have e1 : (slice (flipBit (writeBytes data l1
          (api.F d k (specHashInput data l1 l2 l3))) i p) l1 (l1 + l2))[i - l1]? =
          (flipBit (writeBytes data l1
            (api.F d k (specHashInput data l1 l2 l3))) i p)[i]? := by
        rw [slice_getElem _ l1 (l1 + l2) (i - l1) (by omega)]
        have hx : l1 + (i - l1) = i := by omega
        rw [hx]
      have e2 : (slice (writeBytes data l1
          (api.F d k (specHashInput data l1 l2 l3))) l1 (l1 + l2))[i - l1]? =
          (writeBytes data l1
            (api.F d k (specHashInput data l1 l2 l3)))[i]? := by
        rw [slice_getElem _ l1 (l1 + l2) (i - l1) (by omega)]
        have hx : l1 + (i - l1) = i := by omega
        rw [hx]
      have hss : slice (flipBit (writeBytes data l1
          (api.F d k (specHashInput data l1 l2 l3))) i p) l1 (l1 + l2) =
          slice (writeBytes data l1
            (api.F d k (specHashInput data l1 l2 l3))) l1 (l1 + l2) :=
        hcon.trans hsl1.symm
      have e3 : (flipBit (writeBytes data l1
          (api.F d k (specHashInput data l1 l2 l3))) i p)[i]? =
          (writeBytes data l1
            (api.F d k (specHashInput data l1 l2 l3)))[i]? := by
        rw [← e1, hss, e2]
      exact hneq_b1 e3
    have hmn : memneq (slice (flipBit (writeBytes data l1
        (api.F d k (specHashInput data l1 l2 l3))) i p) l1 (l1 + l2))
        (api.F d k (specHashInput data l1 l2 l3)) = true :=
      (memneq_eq_true_iff _ _ (by rw [hslen, hT])).mpr hsne
    rw [hmn]
    rfl
  · -- flip outside the Tag region: the embedded tag is the original one,
    -- but the recomputed tag differs by hypothesis on the keyed hash.
    have hsl2 : slice (flipBit (writeBytes data l1
        (api.F d k (specHashInput data l1 l2 l3))) i p) l1 (l1 + l2) =
        slice (writeBytes data l1
          (api.F d k (specHashInput data l1 l2 l3))) l1 (l1 + l2) := by
      apply slice_eq_of_agree
      intro j hj1 hj2
      exact hb2j j (by omega)
    have hsl1 : slice (writeBytes data l1
        (api.F d k (specHashInput data l1 l2 l3))) l1 (l1 + l2) =
        api.F d k (specHashInput data l1 l2 l3) :=
      writeBytes_slice data _ l1 l2 (by omega) hT
    have hmn : memneq (slice (flipBit (writeBytes data l1
        (api.F d k (specHashInput data l1 l2 l3))) i p) l1 (l1 + l2))
        (api.F d k (specHashInput (flipBit (writeBytes data l1
          (api.F d k (specHashInput data l1 l2 l3))) i p) l1 l2 l3)) = true := by
      apply (memneq_eq_true_iff _ _ ?_).mpr
      · rw [hsl2, hsl1]
        exact (hF hinT).symm
      · rw [hsl2, hsl1, hT, api.F_len, hsz]
    rw [hmn]
    rfl

/-! ### Claim theorems -/

/-- C1: for every packet buffer and every layout with
`l1 + l2 + l3 ≤ data.length` and `l2` equal to the engine's output size,
the byte sequence fed to the keyed hash by both `ovpn_hmac_gen` and
`ovpn_hmac_cmp` is exactly `PacketId ++ Prefix ++ Payload`, i.e.
`data[l1+l2 .. l1+l2+l3) ++ data[0 .. l1) ++ data[l1+l2+l3 .. len)`
(which is `specHashInput`), the Tag region `data[l1 .. l1+l2)` excluded:
the tag written by gen and the tag compared by cmp are the keyed hash of
exactly that sequence, and the hash state consumed exactly it. -/
theorem hash_input_order (api : CryptoAPI) (c : OvpnHMAC) (d : Nat)
    (k data : List Nat) (l1 l2 l3 : Nat)
    (hd : c.ctx.inited = some (d, k))
    (hl : l1 + l2 + l3 ≤ data.length) (hsz : l2 = c.output_size api) :
    c.ovpn_hmac_gen api data l1 l2 l3 =
      (none, writeBytes data l1 (api.F d k (specHashInput data l1 l2 l3)),
        ⟨⟨some (d, k), specHashInput data l1 l2 l3⟩⟩) ∧
    c.ovpn_hmac_cmp api data l1 l2 l3 =
      (!memneq (slice data l1 (l1 + l2))
          (api.F d k (specHashInput data l1 l2 l3)),
        data, ⟨⟨some (d, k), specHashInput data l1 l2 l3⟩⟩) := by
  have hsz2 : l2 = api.sz d := by rw [hsz, output_size_eq api c d k hd]
  rw [engine_eta c d k hd]
  exact ⟨ovpn_hmac_gen_valid api d k _ data l1 l2 l3 hl hsz2,
    ovpn_hmac_cmp_valid api d k _ data l1 l2 l3 hl hsz2⟩

/-- Witness for hash_input_order at a concrete packet. -/
theorem hash_input_order_witness :
    OvpnHMAC.ovpn_hmac_gen toyAPI ⟨⟨some (1, [5, 6]), []⟩⟩
        [9, 8, 7, 6, 5, 4, 3] 1 2 3 =
      (none, writeBytes [9, 8, 7, 6, 5, 4, 3] 1
          (toyAPI.F 1 [5, 6] (specHashInput [9, 8, 7, 6, 5, 4, 3] 1 2 3)),
        ⟨⟨some (1, [5, 6]), specHashInput [9, 8, 7, 6, 5, 4, 3] 1 2 3⟩⟩) ∧
    OvpnHMAC.ovpn_hmac_cmp toyAPI ⟨⟨some (1, [5, 6]), []⟩⟩
        [9, 8, 7, 6, 5, 4, 3] 1 2 3 =
      (!memneq (slice [9, 8, 7, 6, 5, 4, 3] 1 (1 + 2))
          (toyAPI.F 1 [5, 6] (specHashInput [9, 8, 7, 6, 5, 4, 3] 1 2 3)),
        [9, 8, 7, 6, 5, 4, 3],
        ⟨⟨some (1, [5, 6]), specHashInput [9, 8, 7, 6, 5, 4, 3] 1 2 3⟩⟩) :=
  hash_input_order toyAPI ⟨⟨some (1, [5, 6]), []⟩⟩ 1 [5, 6]
    [9, 8, 7, 6, 5, 4, 3] 1 2 3 rfl (by decide) rfl

/-- C2: round trip.  For any bound engine, buffer and layout with
`l1 + l2 + l3 ≤ data.length` and `l2` equal to the engine's output size,
`ovpn_hmac_cmp` on the buffer produced by `ovpn_hmac_gen` — with the same
engine (either the engine state gen returned or the engine gen started
from), same layout, unmodified contents — returns true. -/
theorem round_trip (api : CryptoAPI) (c : OvpnHMAC) (d : Nat)
    (k data : List Nat) (l1 l2 l3 : Nat)
    (hd : c.ctx.inited = some (d, k))
    (hl : l1 + l2 + l3 ≤ data.length) (hsz : l2 = c.output_size api) :
    ((c.ovpn_hmac_gen api data l1 l2 l3).2.2.ovpn_hmac_cmp api
      ((c.ovpn_hmac_gen api data l1 l2 l3).2.1) l1 l2 l3).1 = true ∧
    (c.ovpn_hmac_cmp api
      ((c.ovpn_hmac_gen api data l1 l2 l3).2.1) l1 l2 l3).1 = true := by
  have hsz2 : l2 = api.sz d := by rw [hsz, output_size_eq api c d k hd]
  rw [engine_eta c d k hd,
    ovpn_hmac_gen_valid api d k (c.ctx.acc) data l1 l2 l3 hl hsz2]
  exact ⟨round_trip_core api d k (specHashInput data l1 l2 l3) data l1 l2 l3
      hl hsz2,
    round_trip_core api d k (c.ctx.acc) data l1 l2 l3 hl hsz2⟩

/-- Witness for round_trip at a concrete packet. -/
theorem round_trip_witness :
    ((OvpnHMAC.ovpn_hmac_gen toyAPI ⟨⟨some (1, [5, 6]), []⟩⟩
        [9, 8, 7, 6, 5, 4, 3] 1 2 3).2.2.ovpn_hmac_cmp toyAPI
      ((OvpnHMAC.ovpn_hmac_gen toyAPI ⟨⟨some (1, [5, 6]), []⟩⟩
        [9, 8, 7, 6, 5, 4, 3] 1 2 3).2.1) 1 2 3).1 = true ∧
    (OvpnHMAC.ovpn_hmac_cmp toyAPI ⟨⟨some (1, [5, 6]), []⟩⟩
      ((OvpnHMAC.ovpn_hmac_gen toyAPI ⟨⟨some (1, [5, 6]), []⟩⟩
        [9, 8, 7, 6, 5, 4, 3] 1 2 3).2.1) 1 2 3).1 = true :=
  round_trip toyAPI ⟨⟨some (1, [5, 6]), []⟩⟩ 1 [5, 6] [9, 8, 7, 6, 5, 4, 3]
    1 2 3 rfl (by decide) rfl

/-- C3: on a layout violation (`l1+l2+l3 > data.length` or `l2` different
from the engine's output size), `ovpn_hmac_gen` throws
`ovpn_hmac_context_bad_sizing` leaving buffer and engine untouched, while
`ovpn_hmac_cmp` on the identical inputs returns false — it never raises
(its result type has no error component) — including when `l2` differs
from the output size with otherwise consistent tag bytes. -/
theorem layout_error_asymmetry (api : CryptoAPI) (c : OvpnHMAC)
    (data : List Nat) (l1 l2 l3 : Nat)
    (h : l1 + l2 + l3 > data.length ∨ l2 ≠ c.output_size api) :
    c.ovpn_hmac_gen api data l1 l2 l3 = (some HmacErr.bad_sizing, data, c) ∧
    c.ovpn_hmac_cmp api data l1 l2 l3 = (false, data, c) :=
  ⟨ovpn_hmac_gen_invalid api c data l1 l2 l3 h,
   ovpn_hmac_cmp_invalid api c data l1 l2 l3 h⟩

/-- Witness for layout_error_asymmetry: `l2 = 3` against output size 2. -/
theorem layout_error_asymmetry_witness :
    OvpnHMAC.ovpn_hmac_gen toyAPI ⟨⟨some (1, [5, 6]), []⟩⟩
        [1, 2, 3, 4, 5, 6, 7] 1 3 3 =
      (some HmacErr.bad_sizing, [1, 2, 3, 4, 5, 6, 7],
        ⟨⟨some (1, [5, 6]), []⟩⟩) ∧
    OvpnHMAC.ovpn_hmac_cmp toyAPI ⟨⟨some (1, [5, 6]), []⟩⟩
        [1, 2, 3, 4, 5, 6, 7] 1 3 3 =
      (false, [1, 2, 3, 4, 5, 6, 7], ⟨⟨some (1, [5, 6]), []⟩⟩) :=
  layout_error_asymmetry toyAPI ⟨⟨some (1, [5, 6]), []⟩⟩
    [1, 2, 3, 4, 5, 6, 7] 1 3 3 (Or.inr (by decide))

/-- C4: tamper detection.  Flipping any single bit of any byte `i` of the
buffer produced by `ovpn_hmac_gen` — in the Tag region, the Prefix, the
PacketId or the trailing payload — makes `ovpn_hmac_cmp` with the same
engine and layout return false; for a flip outside the Tag region this
holds under the hypothesis that the keyed hash maps these two distinct
hash inputs to distinct tags (`hF`), and the first conjunct shows the two
hash inputs are indeed distinct there. -/
theorem tamper_detection (api : CryptoAPI) (c : OvpnHMAC) (d : Nat)
    (k data : List Nat) (l1 l2 l3 i p : Nat)
    (hd : c.ctx.inited = some (d, k))
    (hl : l1 + l2 + l3 ≤ data.length) (hsz : l2 = c.output_size api)
    (hi : i < data.length) (_hp : p < 8)
    (hF : ¬ (l1 ≤ i ∧ i < l1 + l2) →
      api.F d k (specHashInput (flipBit
          ((c.ovpn_hmac_gen api data l1 l2 l3).2.1) i p) l1 l2 l3) ≠
        api.F d k (specHashInput data l1 l2 l3)) :
    (¬ (l1 ≤ i ∧ i < l1 + l2) →
      specHashInput (flipBit ((c.ovpn_hmac_gen api data l1 l2 l3).2.1) i p)
          l1 l2 l3 ≠ specHashInput data l1 l2 l3) ∧
    ((c.ovpn_hmac_gen api data l1 l2 l3).2.2.ovpn_hmac_cmp api
      (flipBit ((c.ovpn_hmac_gen api data l1 l2 l3).2.1) i p)
      l1 l2 l3).1 = false := by
  have hsz2 : l2 = api.sz d := by rw [hsz, output_size_eq api c d k hd]
  rw [engine_eta c d k hd,
    ovpn_hmac_gen_valid api d k (c.ctx.acc) data l1 l2 l3 hl hsz2] at hF ⊢
  exact tamper_core api d k (specHashInput data l1 l2 l3) data l1 l2 l3 i p
    hl hsz2 hi hF

/-- Witness for tamper_detection: payload byte 6 with bit 0 flipped. -/
theorem tamper_detection_witness :
    (¬ (1 ≤ 6 ∧ 6 < 1 + 2) →
      specHashInput (flipBit ((OvpnHMAC.ovpn_hmac_gen toyAPI
          ⟨⟨some (1, [5, 6]), []⟩⟩ [9, 8, 7, 6, 5, 4, 3] 1 2 3).2.1) 6 0)
          1 2 3 ≠ specHashInput [9, 8, 7, 6, 5, 4, 3] 1 2 3) ∧
    ((OvpnHMAC.ovpn_hmac_gen toyAPI ⟨⟨some (1, [5, 6]), []⟩⟩
        [9, 8, 7, 6, 5, 4, 3] 1 2 3).2.2.ovpn_hmac_cmp toyAPI
      (flipBit ((OvpnHMAC.ovpn_hmac_gen toyAPI ⟨⟨some (1, [5, 6]), []⟩⟩
        [9, 8, 7, 6, 5, 4, 3] 1 2 3).2.1) 6 0) 1 2 3).1 = false :=
  tamper_detection toyAPI ⟨⟨some (1, [5, 6]), []⟩⟩ 1 [5, 6]
    [9, 8, 7, 6, 5, 4, 3] 1 2 3 6 0 rfl (by decide) rfl (by decide)
    (by decide) (fun _ => by decide)

/-- C5: the comparison `ovpn_hmac_cmp` uses (`crypto::memneq`, modelled
here with its loop instrumented by a step count) is a dedicated
constant-time, non-short-circuiting byte compare: its iteration count is
exactly the number of byte pairs, so the execution time depends only on
the operand lengths, never on the position of the first differing byte. -/
theorem memneq_constant_time :
    (∀ a b : List Nat, memneqSteps a b = min a.length b.length) ∧
    (∀ a b a2 b2 : List Nat, a.length = a2.length → b.length = b2.length →
      memneqSteps a b = memneqSteps a2 b2) := by
  refine ⟨fun a b => memneqSteps_eq a b, fun a b a2 b2 h1 h2 => ?_⟩
  rw [memneqSteps_eq, memneqSteps_eq, h1, h2]

/-- Witness for memneq_constant_time: operands differing first at byte 0
versus at byte 2 take the same number of steps. -/
theorem memneq_constant_time_witness :
    memneqSteps [1, 2, 3] [4, 5, 6] = memneqSteps [9, 9, 9] [9, 9, 1] :=
  memneq_constant_time.2 [1, 2, 3] [4, 5, 6] [9, 9, 9] [9, 9, 1] rfl rfl

/-- C6: `init(digest, key)` with `key.size() < alg.size()` throws
`ovpn_hmac_context_digest_size` before touching the context — the engine
state, in particular `defined()`, is exactly what it was — while a key of
at least the required size binds the keyed-hash primitive and leaves the
engine defined. -/
theorem init_key_size (api : CryptoAPI) (c : OvpnHMAC) (digest : Nat)
    (key : List Nat) :
    (key.length < api.sz digest →
      c.init api digest key = (some HmacErr.digest_size, c) ∧
      (c.init api digest key).2.defined = c.defined) ∧
    (api.sz digest ≤ key.length →
      c.init api digest key =
        (none, ⟨HMACContext.init digest key (api.sz digest)⟩) ∧
      (c.init api digest key).2.defined = true) := by
  constructor
  · intro h
    have he : c.init api digest key = (some HmacErr.digest_size, c) := by
      rw [OvpnHMAC.init, if_pos h]
    exact ⟨he, by rw [he]⟩
  · intro h
    have he : c.init api digest key =
        (none, ⟨HMACContext.init digest key (api.sz digest)⟩) := by
      rw [OvpnHMAC.init, if_neg (by omega)]
    refine ⟨he, ?_⟩
    rw [he]
    rfl

/-- Witness for init_key_size: a 1-byte key is rejected (output size 2),
a 3-byte key is accepted. -/
theorem init_key_size_witness :
    (OvpnHMAC.init toyAPI OvpnHMAC.mk0 0 [1] =
        (some HmacErr.digest_size, OvpnHMAC.mk0) ∧
      (OvpnHMAC.init toyAPI OvpnHMAC.mk0 0 [1]).2.defined =
        OvpnHMAC.mk0.defined) ∧
    OvpnHMAC.init toyAPI OvpnHMAC.mk0 0 [1, 2, 3] =
      (none, ⟨HMACContext.init 0 [1, 2, 3] (toyAPI.sz 0)⟩) :=
  ⟨(init_key_size toyAPI OvpnHMAC.mk0 0 [1]).1 (by decide),
   ((init_key_size toyAPI OvpnHMAC.mk0 0 [1, 2, 3]).2 (by decide)).1⟩

/-- C7: constructing a `CryptoOvpnHMACContext` from a digest identifier
outside the registry's legal set fails at construction — the constructor
takes no key material at all — while an identifier inside the legal set
yields a context whose `size()` is that digest's output size. -/
theorem context_algorithm_gating (api : CryptoAPI) (d : Nat) :
    (api.legal d = false →
      CryptoOvpnHMACContext.make api d = Except.error CtxErr.unsupported) ∧
    (api.legal d = true →
      CryptoOvpnHMACContext.make api d = Except.ok ⟨d⟩ ∧
      CryptoOvpnHMACContext.size api ⟨d⟩ = api.sz d) := by
  refine ⟨fun h => ?_, fun h => ⟨?_, rfl⟩⟩ <;>
    simp [CryptoOvpnHMACContext.make, legal_dc_digest, h]

/-- Witness for context_algorithm_gating: identifier 12 is outside the
toy legal set, identifier 3 inside. -/
theorem context_algorithm_gating_witness :
    CryptoOvpnHMACContext.make toyAPI 12 =
      Except.error CtxErr.unsupported ∧
    CryptoOvpnHMACContext.make toyAPI 3 = Except.ok ⟨3⟩ :=
  ⟨(context_algorithm_gating toyAPI 12).1 (by decide),
   ((context_algorithm_gating toyAPI 3).2 (by decide)).1⟩

/-- C8: on a valid layout, `ovpn_hmac_gen` writes exactly the `l2` tag
bytes into positions `[l1, l1+l2)` of the buffer — the buffer keeps its
length, the Tag region holds the keyed hash of the convoluted input, and
every byte outside `[l1, l1+l2)` is unchanged. -/
theorem gen_writes_only_tag (api : CryptoAPI) (c : OvpnHMAC) (d : Nat)
    (k data : List Nat) (l1 l2 l3 : Nat)
    (hd : c.ctx.inited = some (d, k))
    (hl : l1 + l2 + l3 ≤ data.length) (hsz : l2 = c.output_size api) :
    (c.ovpn_hmac_gen api data l1 l2 l3).2.1.length = data.length ∧
    slice ((c.ovpn_hmac_gen api data l1 l2 l3).2.1) l1 (l1 + l2) =
      api.F d k (specHashInput data l1 l2 l3) ∧
    ∀ i, i < l1 ∨ l1 + l2 ≤ i →
      ((c.ovpn_hmac_gen api data l1 l2 l3).2.1)[i]? = data[i]? := by
  have hsz2 : l2 = api.sz d := by rw [hsz, output_size_eq api c d k hd]
  have hT : (api.F d k (specHashInput data l1 l2 l3)).length = l2 := by
    rw [api.F_len, hsz2]
  rw [engine_eta c d k hd,
    ovpn_hmac_gen_valid api d k (c.ctx.acc) data l1 l2 l3 hl hsz2]
  refine ⟨writeBytes_length data _ l1 (by omega), ?_, ?_⟩
  · exact writeBytes_slice data _ l1 l2 (by omega) hT
  · intro i hi
    exact writeBytes_getElem_out data _ l1 i (by omega) (by omega)

/-- Witness for gen_writes_only_tag: length kept, prefix byte 0 and
payload byte 5 untouched. -/
theorem gen_writes_only_tag_witness :
    (OvpnHMAC.ovpn_hmac_gen toyAPI ⟨⟨some (1, [5, 6]), []⟩⟩
      [9, 8, 7, 6, 5, 4, 3] 1 2 3).2.1.length = 7 ∧
    ((OvpnHMAC.ovpn_hmac_gen toyAPI ⟨⟨some (1, [5, 6]), []⟩⟩
      [9, 8, 7, 6, 5, 4, 3] 1 2 3).2.1)[0]? = some 9 ∧
    ((OvpnHMAC.ovpn_hmac_gen toyAPI ⟨⟨some (1, [5, 6]), []⟩⟩
      [9, 8, 7, 6, 5, 4, 3] 1 2 3).2.1)[5]? = some 4 :=
  ⟨(gen_writes_only_tag toyAPI ⟨⟨some (1, [5, 6]), []⟩⟩ 1 [5, 6]
      [9, 8, 7, 6, 5, 4, 3] 1 2 3 rfl (by decide) rfl).1,
   (gen_writes_only_tag toyAPI ⟨⟨some (1, [5, 6]), []⟩⟩ 1 [5, 6]
      [9, 8, 7, 6, 5, 4, 3] 1 2 3 rfl (by decide) rfl).2.2 0
      (Or.inl (by decide)),
   (gen_writes_only_tag toyAPI ⟨⟨some (1, [5, 6]), []⟩⟩ 1 [5, 6]
      [9, 8, 7, 6, 5, 4, 3] 1 2 3 rfl (by decide) rfl).2.2 5
      (Or.inr (by decide))⟩

/-- C9: `init` binds exactly the first `sz(digest)` key bytes: it succeeds
precisely when the key has at least `sz(digest)` bytes — the same value
`output_size()` then returns — and two sufficiently long keys agreeing on
their first `sz(digest)` bytes yield equal engines, hence identical
`ovpn_hmac_gen` and `ovpn_hmac_cmp` results on every input. -/
theorem init_key_truncation (api : CryptoAPI) (c1 c2 : OvpnHMAC) (d : Nat)
    (k1 k2 : List Nat)
    (h1 : api.sz d ≤ k1.length) (h2 : api.sz d ≤ k2.length)
    (hagree : k1.take (api.sz d) = k2.take (api.sz d)) :
    (∀ key : List Nat,
      (c1.init api d key).1 = none ↔ api.sz d ≤ key.length) ∧
    (c1.init api d k1).2.output_size api = api.sz d ∧
    (c1.init api d k1).2 = (c2.init api d k2).2 ∧
    ∀ data l1 l2 l3,
      (c1.init api d k1).2.ovpn_hmac_gen api data l1 l2 l3 =
        (c2.init api d k2).2.ovpn_hmac_gen api data l1 l2 l3 ∧
      (c1.init api d k1).2.ovpn_hmac_cmp api data l1 l2 l3 =
        (c2.init api d k2).2.ovpn_hmac_cmp api data l1 l2 l3 := by
  have hinit1 : c1.init api d k1 =
      (none, ⟨HMACContext.init d k1 (api.sz d)⟩) := by
    rw [OvpnHMAC.init, if_neg (by omega)]
  have hinit2 : c2.init api d k2 =
      (none, ⟨HMACContext.init d k2 (api.sz d)⟩) := by
    rw [OvpnHMAC.init, if_neg (by omega)]
  have heng : (c1.init api d k1).2 = (c2.init api d k2).2 := by
    rw [hinit1, hinit2]
    show (⟨HMACContext.init d k1 (api.sz d)⟩ : OvpnHMAC) =
      ⟨HMACContext.init d k2 (api.sz d)⟩
    unfold HMACContext.init
    rw [hagree]
  refine ⟨?_, ?_, heng, fun data l1 l2 l3 => ⟨by rw [heng], by rw [heng]⟩⟩
  · intro key
    by_cases hk : key.length < api.sz d
    · rw [OvpnHMAC.init, if_pos hk]
      simp
      omega
    · rw [OvpnHMAC.init, if_neg hk]
      simp
      omega
  · rw [hinit1]
    rfl

/-- Witness for init_key_truncation: keys `[7,8,9]` and `[7,8,42,43]`
agree on their first 2 bytes and yield the same engine. -/
theorem init_key_truncation_witness :
    (OvpnHMAC.init toyAPI OvpnHMAC.mk0 1 [7, 8, 9]).1 = none ∧
    (OvpnHMAC.init toyAPI OvpnHMAC.mk0 1 [7, 8, 9]).2.output_size toyAPI =
      toyAPI.sz 1 ∧
    (OvpnHMAC.init toyAPI OvpnHMAC.mk0 1 [7, 8, 9]).2 =
      (OvpnHMAC.init toyAPI OvpnHMAC.mk0 1 [7, 8, 42, 43]).2 :=
  ⟨((init_key_truncation toyAPI OvpnHMAC.mk0 OvpnHMAC.mk0 1 [7, 8, 9]
      [7, 8, 42, 43] (by decide) (by decide) (by decide)).1 [7, 8, 9]).mpr
      (by decide),
   (init_key_truncation toyAPI OvpnHMAC.mk0 OvpnHMAC.mk0 1 [7, 8, 9]
      [7, 8, 42, 43] (by decide) (by decide) (by decide)).2.1,
   (init_key_truncation toyAPI OvpnHMAC.mk0 OvpnHMAC.mk0 1 [7, 8, 9]
      [7, 8, 42, 43] (by decide) (by decide) (by decide)).2.2.1⟩

/-- C10: `ovpn_hmac_cmp` never modifies the packet buffer (its `data`
argument is `const`): the buffer after the call equals the input for all
inputs; and on a layout violation it returns false before touching the
hashing state, leaving the engine exactly as it was. -/
theorem cmp_preserves_inputs (api : CryptoAPI) (c : OvpnHMAC)
    (data : List Nat) (l1 l2 l3 : Nat) :
    (c.ovpn_hmac_cmp api data l1 l2 l3).2.1 = data ∧
    (l1 + l2 + l3 > data.length ∨ l2 ≠ c.output_size api →
      c.ovpn_hmac_cmp api data l1 l2 l3 = (false, data, c)) := by
  constructor
  · rcases hres : c.ovpn_hmac_pre api data l1 l2 l3 with ⟨b, c1⟩
    cases b <;> simp [OvpnHMAC.ovpn_hmac_cmp, hres]
  · exact ovpn_hmac_cmp_invalid api c data l1 l2 l3

/-- Witness for cmp_preserves_inputs: an oversized layout leaves buffer
and engine untouched and returns false. -/
theorem cmp_preserves_inputs_witness :
    (OvpnHMAC.ovpn_hmac_cmp toyAPI ⟨⟨some (1, [5, 6]), []⟩⟩
      [1, 2, 3] 1 2 3).2.1 = [1, 2, 3] ∧
    OvpnHMAC.ovpn_hmac_cmp toyAPI ⟨⟨some (1, [5, 6]), []⟩⟩ [1, 2, 3] 1 2 3 =
      (false, [1, 2, 3], ⟨⟨some (1, [5, 6]), []⟩⟩) :=
  ⟨(cmp_preserves_inputs toyAPI ⟨⟨some (1, [5, 6]), []⟩⟩ [1, 2, 3] 1 2 3).1,
   (cmp_preserves_inputs toyAPI ⟨⟨some (1, [5, 6]), []⟩⟩ [1, 2, 3] 1 2 3).2
     (Or.inl (by decide))⟩

end OvpnHmacSpec
